import Mathlib

/-!
# Verification of the easy-pg PostgreSQL helper library

A shallow embedding of the repository's Go code (package `postgres`):
the transaction runner `ExecTx`, the batch executor `ExecBatch`,
the nil-pool guards of the `Client` methods, the environment-integer
parser `parseInt`/`getEnvInt`, and the migration manager
(`ApplyMigration`, `Migrate`, `RollbackLastMigration`,
`LoadMigrationsFromPath`).

Interaction with the database server is modelled by explicit oracle
parameters (the outcome the server would return for each statement);
the Go control flow around those outcomes is translated directly.
-/

/-- Go error values as produced by this code base: `msg s` is an error
whose message is `s` (`fmt.Errorf` without `%w`), and `wrap ctx cause`
is `fmt.Errorf("ctx: %w", cause)`. -/
inductive GoErr : Type where
  | msg (s : String)
  | wrap (ctx : String) (cause : GoErr)
deriving DecidableEq, Repr

/-- The string `err.Error()` of a Go error: a `%w`-wrap renders as
`"ctx: cause"`. -/
def goErrString : GoErr → String
  | .msg s => s
  | .wrap ctx cause => ctx ++ ": " ++ goErrString cause

/-- The three pool/transaction operations `ExecTx` can attempt. -/
inductive TxAction : Type where
  | beginTx
  | rollbackTx
  | commitTx
deriving DecidableEq, Repr

/-- `Client.ExecTx` (client.go:137-164). The outcomes the pool and the
transaction would report are passed as oracles: `beginRes` for
`pool.Begin`, `workRes` for the caller's work function `fn`,
`rbRes` for `tx.Rollback`, `commitRes` for `tx.Commit`
(`none` = success, `some e` = that operation fails with `e`).
Returns the error `ExecTx` returns together with the list of
begin/rollback/commit operations it attempted, in order.
The composite error in the work-failed/rollback-failed case mirrors
`fmt.Errorf("tx failed: %v, rollback failed: %v", err, rbErr)`, a flat
message built from both error strings. -/
def ExecTx (beginRes workRes rbRes commitRes : Option GoErr) :
    Option GoErr × List TxAction :=
  match beginRes with
  | some e => (some (.wrap "failed to begin transaction" e), [.beginTx])
  | none =>
    match workRes with
    | some e =>
      match rbRes with
      | some rbe =>
        (some (.msg ("tx failed: " ++ goErrString e ++ ", rollback failed: " ++ goErrString rbe)),
         [.beginTx, .rollbackTx])
      | none => (some e, [.beginTx, .rollbackTx])
    | none =>
      match commitRes with
      | some e => (some (.wrap "failed to commit transaction" e), [.beginTx, .commitTx])
      | none => (none, [.beginTx, .commitTx])

/-! ## Client construction and the nil-pool guards -/

/-- The `Client` struct (client.go:26-30), reduced to the one field the
pre-connect behavior depends on: `pool` is `none` until `Connect`
succeeds (`c.pool == nil` in Go) and `some ()` afterwards. The config
and logger fields do not influence the guards. -/
structure Client : Type where
  pool : Option Unit
deriving DecidableEq, Repr

/-- What a method call on a `Client` does before delegating real work:
return an error value, panic on a nil-pointer dereference, or reach the
live pool (whose behavior is the driver's and is not modelled further). -/
inductive CallOutcome : Type where
  | delegated
  | errReturn (e : GoErr)
  | nilPanic
deriving DecidableEq, Repr

/-- `true` exactly when a call returned an error value to its caller. -/
def CallOutcome.isErrReturn : CallOutcome → Bool
  | .errReturn _ => true
  | _ => false

/-- `Client.Ping` (client.go:120-135): explicitly guarded by
`if c.pool == nil`, returning an error value. -/
def Client.Ping (c : Client) : CallOutcome :=
  match c.pool with
  | none => .errReturn (.msg "connection pool is not initialized")
  | some _ => .delegated

/-- `Client.QueryRow` (part_002:11-14): calls `c.pool.QueryRow` with no
nil check; on a nil pool the method dereferences the pool and panics. -/
def Client.QueryRow (c : Client) : CallOutcome :=
  match c.pool with
  | none => .nilPanic
  | some _ => .delegated

/-- `Client.QueryRows` (part_002:16-19): calls `c.pool.Query` with no
nil check. -/
def Client.QueryRows (c : Client) : CallOutcome :=
  match c.pool with
  | none => .nilPanic
  | some _ => .delegated

/-- `Client.Exec` (part_002:21-30): calls `c.pool.Exec` with no nil
check. -/
def Client.Exec (c : Client) : CallOutcome :=
  match c.pool with
  | none => .nilPanic
  | some _ => .delegated

/-- `Client.ExecBatch` (part_002:32-58): calls `c.pool.SendBatch` with
no nil check. -/
def Client.ExecBatch (c : Client) : CallOutcome :=
  match c.pool with
  | none => .nilPanic
  | some _ => .delegated

/-- `Client.ExecTx` entry (client.go:137-145): calls `c.pool.Begin`
with no nil check. -/
def Client.ExecTx (c : Client) : CallOutcome :=
  match c.pool with
  | none => .nilPanic
  | some _ => .delegated

/-- `Client.Close` (client.go:109-114): guarded by `if c.pool != nil`;
on a never-connected client it is a no-op, and on a connected client it
delegates to the driver's pool close (itself idempotent). -/
def Client.Close (c : Client) : CallOutcome :=
  match c.pool with
  | none => .delegated
  | some _ => .delegated

/-! ## The environment-integer parser (client.go:166-192) -/

/-- Signed 64-bit wrap-around, the behavior of Go's `int` arithmetic. -/
def wrap64 (x : Int) : Int := (x + 2 ^ 63) % 2 ^ 64 - 2 ^ 63

/-- The digit-accumulation loop of `parseInt` (client.go:182-192).
`for _, ch := range s` yields runes, which are signed 32-bit integers;
`ch -= '0'` and the guard `ch > 9` are therefore signed operations, so
a character below `'0'` yields a negative value that passes the guard
and is folded into the accumulator. -/
def parseIntLoop : List Char → Int → Option Int
  | [], n => some n
  | c :: cs, n =>
    let d : Int := (c.toNat : Int) - 48
    if d > 9 then none
    else parseIntLoop cs (wrap64 (n * 10 + d))

/-- `parseInt` (client.go:182-192): `none` models the
`invalid number` error return. -/
def parseInt (s : String) : Option Int :=
  parseIntLoop s.toList 0

/-- `getEnvInt` (client.go:173-180), with the environment lookup passed
in: `value = none` models an unset variable, `some v` a variable set to
`v`. Returns the parsed value when parsing succeeds, else the fallback. -/
def getEnvInt (value : Option String) (fallback : Int) : Int :=
  match value with
  | some v =>
    match parseInt v with
    | some n => n
    | none => fallback
  | none => fallback

/-- The `Config` fields that `NewClient` defaults (client.go:48-70);
`timeoutNs` is the `time.Duration` in nanoseconds. -/
structure Config : Type where
  port : Int
  sslmode : String
  timeoutNs : Int
  maxConns : Int
deriving DecidableEq, Repr

/-- `NewClient`'s zero-value defaulting (client.go:48-60): port 0 →
5432, empty sslmode → "disable", zero timeout → 5s, zero max
connections → 10. -/
def NewClient (cfg : Config) : Config :=
  { port := if cfg.port = 0 then 5432 else cfg.port
    sslmode := if cfg.sslmode = "" then "disable" else cfg.sslmode
    timeoutNs := if cfg.timeoutNs = 0 then 5 * 1000000000 else cfg.timeoutNs
    maxConns := if cfg.maxConns = 0 then 10 else cfg.maxConns }

/-! ## The batch executor (part_002:32-58) -/

/-- The result-pulling loop of `ExecBatch`
(`for i := range batch.Len() { batchResults.Exec() ... }`):
`res i` is the per-statement outcome the server reports for the i-th
queued statement; the first failure is returned wrapped with its
zero-based index (`fmt.Errorf("error in batch query %d: %w", i, err)`).
`k` is the number of results still to pull, `i` the current index. -/
def execBatchResults (res : Nat → Option GoErr) : Nat → Nat → Option GoErr
  | 0, _ => none
  | k + 1, i =>
    match res i with
    | some e => some (.wrap ("error in batch query " ++ toString i) e)
    | none => execBatchResults res k (i + 1)

/-- `Client.ExecBatch` (part_002:32-58): queues every query (with its
argument list when present) into one batch, sends it, then pulls
`batch.Len() = queries.length` results in submission order. -/
def ExecBatch (res : Nat → Option GoErr) (queries : List String)
    (args : List (List String)) : Option GoErr :=
  execBatchResults res queries.length 0

/-- Which statement indexes the server actually executes for a batch of
`k` statements starting at index `i`: statements run in submission
order and, because the batch runs as one implicit transaction, the
first failure aborts the remainder (the failing statement itself was
executed). This models the wire-protocol batch semantics the code
relies on; it is not part of the repository's own source. -/
def batchExecuted (res : Nat → Option GoErr) : Nat → Nat → List Nat
  | 0, _ => []
  | k + 1, i =>
    match res i with
    | some _ => [i]
    | none => i :: batchExecuted res k (i + 1)

/-! ## The migration manager (part_001) -/

/-- The `Migration` struct (part_001:16-21). The discovery timestamp
(`time.Now()` at load time) carries no logic and is not modelled. -/
structure Migration : Type where
  version : Int
  description : String
  sql : String
deriving DecidableEq, Repr

/-- A SQL statement executed (via `tx.Exec`) against the store by the
migration manager: a migration body, the ledger `INSERT` recording a
version, a caller-supplied rollback statement, or the ledger `DELETE`
of a version. Plain `SELECT` queries are not recorded. -/
inductive Stmt : Type where
  | migBody (version : Int) (body : String)
  | insertLedger (version : Int)
  | rollbackBody (body : String)
  | deleteLedger (version : Int)
deriving DecidableEq, Repr

/-- The store state the migration manager observes: `applied` is the
set of versions in the `migrations` ledger table (its `applied_at`
column carries no logic and is not modelled), and `trace` is the
ever-growing log of statements submitted for execution (rolled-back
statements stay in the trace; their state effects are undone). -/
structure MigState : Type where
  applied : List Int
  trace : List Stmt
deriving DecidableEq, Repr

/-- `ApplyMigration` (part_001:78-95): inside one `ExecTx` transaction,
execute the migration body, then `INSERT` the ledger row. `execBody m`
is the oracle for the body's outcome; the ledger `INSERT` fails exactly
when the version already exists (the `version` column is `UNIQUE`).
If either statement fails the transaction rolls back, so `applied` is
only extended on full success; begin, rollback and commit themselves
are taken to succeed here (their failure modes are covered by the
stand-alone `ExecTx` model). -/
def ApplyMigration (execBody : Migration → Option GoErr) (m : Migration)
    (s : MigState) : MigState × Option GoErr :=
  match execBody m with
  | some e =>
    ({ s with trace := s.trace ++ [.migBody m.version m.sql] },
     some (.wrap ("error applying migration " ++ toString m.version) e))
  | none =>
    if m.version ∈ s.applied then
      ({ s with trace := s.trace ++ [.migBody m.version m.sql, .insertLedger m.version] },
       some (.wrap ("error registering migration " ++ toString m.version)
         (.msg "duplicate key value violates unique constraint")))
    else
      ({ applied := s.applied ++ [m.version],
         trace := s.trace ++ [.migBody m.version m.sql, .insertLedger m.version] },
       none)

/-- The loop of `Migrate` (part_001:107-117): walk the input list in
its given order; skip a migration whose version is in the `applied`
snapshot taken before the loop; otherwise apply it, stopping at the
first failure. -/
def migrateLoop (execBody : Migration → Option GoErr) (snap : List Int) :
    List Migration → MigState → MigState × Option GoErr
  | [], s => (s, none)
  | m :: rest, s =>
    if m.version ∈ snap then migrateLoop execBody snap rest s
    else
      match ApplyMigration execBody m s with
      | (s', none) => migrateLoop execBody snap rest s'
      | (s', some e) => (s', some e)

/-- `Migrate` (part_001:97-120): ensure the ledger table exists
(`CREATE TABLE IF NOT EXISTS`, a no-op on the modelled state), read the
applied-set snapshot, then run the loop. -/
def Migrate (execBody : Migration → Option GoErr) (migrations : List Migration)
    (s : MigState) : MigState × Option GoErr :=
  migrateLoop execBody s.applied migrations s

/-- The versions whose migration bodies were submitted for execution,
in execution order. -/
def bodyVersions (tr : List Stmt) : List Int :=
  tr.filterMap fun st =>
    match st with
    | .migBody v _ => some v
    | _ => none

/-- `RollbackLastMigration` (part_001:122-158): read the
highest-version ledger row (the `ORDER BY version DESC LIMIT 1` query;
scanning an empty result yields the driver's no-rows error, wrapped);
look the version up in the caller-supplied rollback map; then, inside
one transaction, execute the rollback statement (outcome given by the
`execSql` oracle) followed by the ledger `DELETE` for that version. -/
def RollbackLastMigration (execSql : String → Option GoErr)
    (rollbacks : Int → Option String) (s : MigState) : MigState × Option GoErr :=
  match s.applied.max? with
  | none => (s, some (.wrap "error getting last migration" (.msg "no rows in result set")))
  | some v =>
    match rollbacks v with
    | none => (s, some (.msg ("no rollback for migration " ++ toString v)))
    | some sql =>
      match execSql sql with
      | some e =>
        ({ s with trace := s.trace ++ [.rollbackBody sql] },
         some (.wrap ("error applying rollback " ++ toString v) e))
      | none =>
        ({ applied := s.applied.filter (fun w => w != v),
           trace := s.trace ++ [.rollbackBody sql, .deleteLedger v] },
         none)

/-- A migration with the given version and empty description and body,
for concrete test inputs. -/
def migOf (v : Int) : Migration :=
  { version := v, description := "", sql := "" }

/-! ## Loading migration files (part_001:160-205) -/

/-- A directory entry as returned by `os.ReadDir`, together with the
file content that `os.ReadFile` would produce for it (file reads are
taken to succeed; a read failure aborts the whole load in Go and no
claim concerns it). -/
structure DirEntry : Type where
  name : String
  isDir : Bool
  content : String
deriving DecidableEq, Repr

/-- `strings.HasSuffix(name, ".sql")`. -/
def hasSqlSuffix (s : String) : Bool :=
  ".sql".toList.isSuffixOf s.toList

/-- `strings.SplitN(name, "_", 2)`: `none` when the name contains no
`'_'` (Go then returns a single part, and `len(parts) < 2` skips the
entry); otherwise the part before the first `'_'` and the rest. -/
def splitFirstUnderscore : List Char → Option (List Char × List Char)
  | [] => none
  | c :: cs =>
    if c = '_' then some ([], cs)
    else (splitFirstUnderscore cs).map fun p => (c :: p.1, p.2)

/-- The value of a decimal digit character, `none` for a non-digit. -/
def digitVal (c : Char) : Option Nat :=
  if 48 ≤ c.toNat ∧ c.toNat ≤ 57 then some (c.toNat - 48) else none

/-- Decimal accumulation over a digit string; `none` on any
non-digit. -/
def digitsVal : List Char → Nat → Option Nat
  | [], n => some n
  | c :: cs, n =>
    match digitVal c with
    | none => none
    | some d => digitsVal cs (n * 10 + d)

/-- `strconv.Atoi`: an optional single sign followed by at least one
digit, rejecting (with an error, here `none`) the empty string, any
non-digit, and values outside the 64-bit `int` range. Note it accepts
a leading `'-'` or `'+'`. -/
def atoi (cs : List Char) : Option Int :=
  let signed : Bool × List Char :=
    match cs with
    | '+' :: rest => (false, rest)
    | '-' :: rest => (true, rest)
    | _ => (false, cs)
  match signed.2 with
  | [] => none
  | _ =>
    match digitsVal signed.2 0 with
    | none => none
    | some n =>
      if signed.1 then
        if n ≤ 2 ^ 63 then some (-(n : Int)) else none
      else
        if n ≤ 2 ^ 63 - 1 then some (n : Int) else none

/-- `strings.TrimSuffix(name, ".sql")`. -/
def trimSuffixSql (s : String) : String :=
  if hasSqlSuffix s then ⟨s.toList.take (s.toList.length - 4)⟩ else s

/-- The keep-and-parse rule for one directory entry, stated as in the
(amended) specification: keep exactly the non-directory entries whose
name ends in `".sql"` and splits on the first `'_'` into a leading
token accepted by `strconv.Atoi` (an optionally signed decimal
integer); the version is that token's value, the description the file
name without the `".sql"` suffix, the body the file content. -/
def migrationOfEntry (e : DirEntry) : Option Migration :=
  if e.isDir = true then none
  else if hasSqlSuffix e.name = false then none
  else
    match splitFirstUnderscore e.name.toList with
    | none => none
    | some (tok, _) =>
      match atoi tok with
      | none => none
      | some v => some { version := v, description := trimSuffixSql e.name, sql := e.content }

/-- The entry loop of `LoadMigrationsFromPath` (part_001:171-198):
walk the directory entries in order, appending a `Migration` for each
entry that passes the checks and silently skipping the rest. -/
def loadLoop : List DirEntry → List Migration → List Migration
  | [], acc => acc
  | e :: rest, acc =>
    if !e.isDir && hasSqlSuffix e.name then
      match splitFirstUnderscore e.name.toList with
      | none => loadLoop rest acc
      | some (tok, _) =>
        match atoi tok with
        | none => loadLoop rest acc
        | some v =>
          loadLoop rest (acc ++ [{ version := v, description := trimSuffixSql e.name, sql := e.content }])
    else loadLoop rest acc

/-- `LoadMigrationsFromPath` (part_001:164-205): collect the parsed
entries, then `sort.Slice` ascending by version. Go's unstable sort
leaves the order of equal versions unspecified; insertion sort realizes
one admissible order. -/
def LoadMigrationsFromPath (entries : List DirEntry) : List Migration :=
  List.insertionSort (fun a b => a.version ≤ b.version) (loadLoop entries [])

instance : IsTotal Migration (fun a b => a.version ≤ b.version) :=
  ⟨fun a b => le_total a.version b.version⟩

instance : IsTrans Migration (fun a b => a.version ≤ b.version) :=
  ⟨fun _ _ _ hab hbc => le_trans hab hbc⟩

/-! ## Theorems -/

/-- The composite work-and-rollback-failure error is never equal to the
bare work error: its message is strictly longer than the work error's
message. -/
lemma composite_ne_work (e rbe : GoErr) :
    GoErr.msg ("tx failed: " ++ goErrString e ++ ", rollback failed: " ++ goErrString rbe) ≠ e := by
  intro h
  cases e with
  | wrap ctx cause => exact GoErr.noConfusion h
  | msg s =>
    have hs : "tx failed: " ++ goErrString (GoErr.msg s) ++ ", rollback failed: " ++ goErrString rbe = s :=
      (GoErr.msg.injEq _ _).mp h
    have hlen := congrArg String.length hs
    rw [String.length_append, String.length_append, String.length_append] at hlen
    have h11 : ("tx failed: " : String).length = 11 := rfl
    have h19 : (", rollback failed: " : String).length = 19 := rfl
    rw [h11, h19] at hlen
    simp [goErrString] at hlen
    omega

/-- Claim C2: when the work function fails and rollback succeeds,
`ExecTx` returns exactly the work function's error (not wrapped); when
rollback also fails, it returns a single composite error built from both
the work failure and the rollback failure, and that composite error is
distinct from the bare work error, so the two outcomes are
distinguishable. -/
theorem execTx_work_error_semantics (commitRes : Option GoErr) (we rb : GoErr) :
    (ExecTx none (some we) none commitRes).fst = some we ∧
    (ExecTx none (some we) (some rb) commitRes).fst =
      some (.msg ("tx failed: " ++ goErrString we ++ ", rollback failed: " ++ goErrString rb)) ∧
    (ExecTx none (some we) (some rb) commitRes).fst ≠ some we := by
  refine ⟨rfl, rfl, ?_⟩
  intro h
  have h' : GoErr.msg ("tx failed: " ++ goErrString we ++ ", rollback failed: " ++ goErrString rb) = we :=
    Option.some.injEq _ _ ▸ h
  exact composite_ne_work we rb (by exact_mod_cast h')

/-- Claim C3: when `Begin` succeeds, `ExecTx` attempts exactly one of
rollback or commit — its action trace is either `[begin, rollback]` or
`[begin, commit]` — and when `Begin` fails it attempts neither, so the
transaction is never left open on any return path. -/
theorem execTx_exactly_one_finalizer (workRes rbRes commitRes : Option GoErr) (be : GoErr) :
    ((ExecTx none workRes rbRes commitRes).snd = [.beginTx, .rollbackTx] ∨
     (ExecTx none workRes rbRes commitRes).snd = [.beginTx, .commitTx]) ∧
    (ExecTx (some be) workRes rbRes commitRes).snd = [.beginTx] := by
  constructor
  · cases workRes with
    | some e =>
      cases rbRes with
      | some rbe => exact Or.inl rfl
      | none => exact Or.inl rfl
    | none =>
      cases commitRes with
      | some e => exact Or.inr rfl
      | none => exact Or.inr rfl
  · rfl

/-- Claim C8 counterexample: on a never-connected client, `Exec` does
not return an error value — it dereferences the nil pool and faults —
so the claim that every operation attempted before connect is guarded
and returns an error is false. -/
theorem client_unguarded_exec_counterexample :
    (Client.Exec { pool := none }).isErrReturn = false ∧
    Client.Exec { pool := none } = CallOutcome.nilPanic := by
  exact ⟨rfl, rfl⟩

/-- Claim C8 (amended): before `Connect`, only `Ping` is guarded and
returns an error value; `QueryRow`, `QueryRows`, `Exec`, `ExecBatch`
and `ExecTx` dereference the nil pool and panic; `Close` on a
never-connected (or already-closed) client is a safe no-op that neither
panics nor returns an error. -/
theorem client_guard_behavior :
    Client.Ping { pool := none } = .errReturn (.msg "connection pool is not initialized") ∧
    Client.QueryRow { pool := none } = .nilPanic ∧
    Client.QueryRows { pool := none } = .nilPanic ∧
    Client.Exec { pool := none } = .nilPanic ∧
    Client.ExecBatch { pool := none } = .nilPanic ∧
    Client.ExecTx { pool := none } = .nilPanic ∧
    Client.Close { pool := none } ≠ .nilPanic ∧
    (Client.Close { pool := none }).isErrReturn = false ∧
    Client.Close { pool := some () } ≠ .nilPanic := by
  refine ⟨rfl, rfl, rfl, rfl, rfl, rfl, ?_, rfl, ?_⟩ <;> decide

/-- Claim C10: the loop guard `ch > 9` is a signed rune comparison, so
a sign character is folded into the number instead of rejecting the
string: `parseInt "-1"` returns `-29` with no error ('-' contributes
digit value `-3`), hence `getEnvInt` with `DB_PORT="-1"` yields `-29`
rather than the fallback `5432` the claim predicts. The empty-string
part of the claim does hold: `""` parses to `0`, and `NewClient` then
replaces the zero values of port, timeout and max connections with its
own defaults. -/
theorem parseInt_sign_bug :
    parseInt "-1" = some (-29) ∧
    getEnvInt (some "-1") 5432 = -29 ∧
    parseInt "a" = none ∧
    parseInt "" = some 0 ∧
    getEnvInt (some "") 5432 = 0 ∧
    (NewClient { port := getEnvInt (some "") 5432,
                 sslmode := "disable",
                 timeoutNs := getEnvInt (some "") 30 * 1000000000,
                 maxConns := getEnvInt (some "") 50 }) =
      { port := 5432, sslmode := "disable", timeoutNs := 5 * 1000000000, maxConns := 10 } := by
  refine ⟨?_, ?_, ?_, rfl, rfl, ?_⟩ <;> decide

lemma execBatchResults_fail (res : Nat → Option GoErr) (e : GoErr) :
    ∀ (k i d : Nat), d < k → res (i + d) = some e → (∀ j, j < d → res (i + j) = none) →
      execBatchResults res k i = some (.wrap ("error in batch query " ++ toString (i + d)) e) := by
  intro k
  induction k with
  | zero => intro i d hd; omega
  | succ k ih =>
    intro i d hd hres hpre
    cases d with
    | zero =>
      simp only [Nat.add_zero] at hres
      simp [execBatchResults, hres]
    | succ d =>
      have h0 : res i = none := by
        have := hpre 0 (Nat.succ_pos d)
        simpa using this
      simp only [execBatchResults, h0]
      have hres' : res (i + 1 + d) = some e := by
        rw [show i + 1 + d = i + (d + 1) by omega]
        exact hres
      have hpre' : ∀ j, j < d → res (i + 1 + j) = none := by
        intro j hj
        rw [show i + 1 + j = i + (j + 1) by omega]
        exact hpre (j + 1) (by omega)
      have := ih (i + 1) d (by omega) hres' hpre'
      rw [this, show i + 1 + d = i + (d + 1) by omega]

lemma batchExecuted_fail (res : Nat → Option GoErr) (e : GoErr) :
    ∀ (k i d : Nat), d < k → res (i + d) = some e → (∀ j, j < d → res (i + j) = none) →
      batchExecuted res k i = (List.range (d + 1)).map (fun j => i + j) := by
  intro k
  induction k with
  | zero => intro i d hd; omega
  | succ k ih =>
    intro i d hd hres hpre
    cases d with
    | zero =>
      simp only [Nat.add_zero] at hres
      simp only [batchExecuted, hres]
      rw [show List.range 1 = [0] from rfl]
      simp
    | succ d =>
      have h0 : res i = none := by
        have := hpre 0 (Nat.succ_pos d)
        simpa using this
      simp only [batchExecuted, h0]
      have hres' : res (i + 1 + d) = some e := by
        rw [show i + 1 + d = i + (d + 1) by omega]
        exact hres
      have hpre' : ∀ j, j < d → res (i + 1 + j) = none := by
        intro j hj
        rw [show i + 1 + j = i + (j + 1) by omega]
        exact hpre (j + 1) (by omega)
      have hrange : List.map (fun j => i + j) (List.range (d + 1 + 1)) =
          i :: List.map (fun j => i + 1 + j) (List.range (d + 1)) := by
        rw [List.range_succ_eq_map]
        simp only [List.map_cons, List.map_map, Nat.add_zero]
        congr 1
        apply List.map_congr_left
        intro a _
        simp only [Function.comp_apply]
        omega
      rw [ih (i + 1) d (by omega) hres' hpre', hrange]

/-- Claim C9: if the first statement-level failure of a batch is at
zero-based index `d` (`res d = some e`, all earlier statements
succeed), `ExecBatch` returns an error wrapping `e` that reports index
`d`; the server executes exactly statements `0..d` (those after the
failing one never execute); and a batch of length 0 returns no error. -/
theorem execBatch_first_failure (res : Nat → Option GoErr) (queries : List String)
    (args : List (List String)) (d : Nat) (e : GoErr)
    (hd : d < queries.length) (hres : res d = some e)
    (hpre : ∀ j, j < d → res j = none) :
    ExecBatch res queries args = some (.wrap ("error in batch query " ++ toString d) e) ∧
    batchExecuted res queries.length 0 = List.range (d + 1) ∧
    (∀ res2 args2, ExecBatch res2 [] args2 = none) := by
  refine ⟨?_, ?_, fun _ _ => rfl⟩
  · have := execBatchResults_fail res e queries.length 0 d hd (by simpa using hres)
      (by intro j hj; simpa using hpre j hj)
    simpa [ExecBatch] using this
  · have := batchExecuted_fail res e queries.length 0 d hd (by simpa using hres)
      (by intro j hj; simpa using hpre j hj)
    simpa using this

/-- Claim C9 witness: a three-statement batch whose second statement
fails reports index 1, and only statements 0 and 1 execute. -/
theorem execBatch_first_failure_witness :
    ExecBatch (fun j => if j = 1 then some (.msg "boom") else none) ["a", "b", "c"] []
        = some (.wrap ("error in batch query " ++ toString 1) (.msg "boom")) ∧
    batchExecuted (fun j => if j = 1 then some (.msg "boom") else none) (["a", "b", "c"] : List String).length 0
        = List.range 2 ∧
    (∀ res2 args2, ExecBatch res2 [] args2 = none) := by
  exact execBatch_first_failure (fun j => if j = 1 then some (.msg "boom") else none)
    ["a", "b", "c"] [] 1 (.msg "boom") (by decide) (by decide)
    (by intro j hj; have : j = 0 := by omega
        subst this; rfl)

/-- Claim C1 counterexample: with an empty applied-set and the input
list `[version 2, version 1]`, `Migrate` executes the bodies in input
order `[2, 1]`, which is not ascending — `Migrate` does not sort, so
pending migrations are not applied in ascending version order
regardless of input ordering. -/
theorem migrate_input_order_counterexample :
    bodyVersions ((Migrate (fun _ => none) [migOf 2, migOf 1]
        { applied := [], trace := [] }).fst.trace) = [2, 1] ∧
    ¬ List.Pairwise (fun a b => a < b)
        (bodyVersions ((Migrate (fun _ => none) [migOf 2, migOf 1]
          { applied := [], trace := [] }).fst.trace)) := by
  constructor
  · rfl
  · intro h
    rw [show bodyVersions ((Migrate (fun _ => none) [migOf 2, migOf 1]
        { applied := [], trace := [] }).fst.trace) = [2, 1] from rfl] at h
    have := List.rel_of_pairwise_cons h (List.mem_singleton.mpr rfl)
    omega

lemma migrateLoop_trace_sublist (execBody : Migration → Option GoErr) (snap : List Int) :
    ∀ (migs : List Migration) (s : MigState),
      ∃ l, (migrateLoop execBody snap migs s).fst.trace = s.trace ++ l ∧
        (bodyVersions l).Sublist (migs.map Migration.version) := by
  intro migs
  induction migs with
  | nil =>
    intro s
    exact ⟨[], by simp [migrateLoop], by simp [bodyVersions]⟩
  | cons m rest ih =>
    intro s
    by_cases hmem : m.version ∈ snap
    · obtain ⟨l, h1, h2⟩ := ih s
      refine ⟨l, ?_, ?_⟩
      · simpa [migrateLoop, hmem] using h1
      · exact h2.cons m.version
    · cases hexec : execBody m with
      | some e =>
        refine ⟨[.migBody m.version m.sql], ?_, ?_⟩
        · simp [migrateLoop, hmem, ApplyMigration, hexec]
        · simp only [bodyVersions, List.filterMap, List.map_cons]
          exact (List.nil_sublist _).cons₂ m.version
      | none =>
        by_cases hdup : m.version ∈ s.applied
        · refine ⟨[.migBody m.version m.sql, .insertLedger m.version], ?_, ?_⟩
          · simp [migrateLoop, hmem, ApplyMigration, hexec, hdup]
          · simp only [bodyVersions, List.filterMap, List.map_cons]
            exact (List.nil_sublist _).cons₂ m.version
        · obtain ⟨l', h1', h2'⟩ := ih
            { applied := s.applied ++ [m.version],
              trace := s.trace ++ [.migBody m.version m.sql, .insertLedger m.version] }
          refine ⟨[.migBody m.version m.sql, .insertLedger m.version] ++ l', ?_, ?_⟩
          · rw [show migrateLoop execBody snap (m :: rest) s =
                migrateLoop execBody snap rest
                  { applied := s.applied ++ [m.version],
                    trace := s.trace ++ [.migBody m.version m.sql, .insertLedger m.version] } by
              simp [migrateLoop, hmem, ApplyMigration, hexec, hdup]]
            rw [h1']
            simp
          · rw [show bodyVersions ([.migBody m.version m.sql, .insertLedger m.version] ++ l')
                = m.version :: bodyVersions l' by simp [bodyVersions, List.filterMap_append, List.filterMap]]
            simp only [List.map_cons]
            exact h2'.cons₂ m.version

/-- Claim C1 (amended): `Migrate` executes pending migrations in the
order of its input list; therefore when the input list is strictly
ascending by version — as `LoadMigrationsFromPath` produces — the
bodies it executes (starting from an empty trace) are in strictly
ascending version order. -/
theorem migrate_sorted_input_ascending (execBody : Migration → Option GoErr)
    (migs : List Migration) (ap : List Int)
    (hsorted : List.Pairwise (fun a b => a < b) (migs.map Migration.version)) :
    List.Pairwise (fun a b => a < b)
      (bodyVersions ((Migrate execBody migs { applied := ap, trace := [] }).fst.trace)) := by
  obtain ⟨l, h1, h2⟩ := migrateLoop_trace_sublist execBody ap migs { applied := ap, trace := [] }
  rw [show (Migrate execBody migs { applied := ap, trace := [] }).fst.trace
      = (migrateLoop execBody ap migs { applied := ap, trace := [] }).fst.trace from rfl, h1]
  simpa using List.Pairwise.sublist h2 hsorted

/-- Claim C1 witness: a sorted two-element input yields an ascending
execution order. -/
theorem migrate_sorted_input_ascending_witness :
    List.Pairwise (fun a b => a < b)
      (bodyVersions ((Migrate (fun _ => none) [migOf 1, migOf 2]
        { applied := [], trace := [] }).fst.trace)) :=
  migrate_sorted_input_ascending (fun _ => none) [migOf 1, migOf 2] [] (by decide)

lemma migrateLoop_skip_all (execBody : Migration → Option GoErr) :
    ∀ (migs : List Migration) (snap : List Int) (s : MigState),
      (∀ m ∈ migs, m.version ∈ snap) →
      migrateLoop execBody snap migs s = (s, none) := by
  intro migs
  induction migs with
  | nil => intro snap s _; rfl
  | cons m rest ih =>
    intro snap s h
    have hm : m.version ∈ snap := h m (List.mem_cons_self m rest)
    simp only [migrateLoop, if_pos hm]
    exact ih snap s (fun m' hm' => h m' (List.mem_cons_of_mem m hm'))

lemma migrateLoop_applies_all (execBody : Migration → Option GoErr)
    (hok : ∀ m, execBody m = none) :
    ∀ (migs : List Migration) (snap : List Int) (s : MigState),
      (migs.map Migration.version).Nodup →
      (∀ v ∈ snap, v ∈ s.applied) →
      (∀ v ∈ migs.map Migration.version, v ∉ snap → v ∉ s.applied) →
      (migrateLoop execBody snap migs s).snd = none ∧
      (∀ v ∈ s.applied, v ∈ (migrateLoop execBody snap migs s).fst.applied) ∧
      (∀ v ∈ migs.map Migration.version, v ∈ (migrateLoop execBody snap migs s).fst.applied) := by
  intro migs
  induction migs with
  | nil =>
    intro snap s _ _ _
    exact ⟨rfl, fun v hv => hv, fun v hv => absurd hv (List.not_mem_nil v)⟩
  | cons m rest ih =>
    intro snap s hnodup hsub hfresh
    have hnodup' : (rest.map Migration.version).Nodup := by
      simpa using hnodup.of_cons
    by_cases hmem : m.version ∈ snap
    · have hloop : migrateLoop execBody snap (m :: rest) s = migrateLoop execBody snap rest s := by
        simp [migrateLoop, hmem]
      have hfresh' : ∀ v ∈ rest.map Migration.version, v ∉ snap → v ∉ s.applied := by
        intro v hv
        exact hfresh v (by simp [hv])
      obtain ⟨h1, h2, h3⟩ := ih snap s hnodup' hsub hfresh'
      rw [hloop]
      refine ⟨h1, h2, ?_⟩
      intro v hv
      simp only [List.map_cons, List.mem_cons] at hv
      rcases hv with hveq | hvrest
      · exact h2 v (hsub v (by rw [hveq]; exact hmem))
      · exact h3 v hvrest
    · have hnotapp : m.version ∉ s.applied :=
        hfresh m.version (by simp) hmem
      have hloop : migrateLoop execBody snap (m :: rest) s =
          migrateLoop execBody snap rest
            { applied := s.applied ++ [m.version],
              trace := s.trace ++ [.migBody m.version m.sql, .insertLedger m.version] } := by
        simp [migrateLoop, hmem, ApplyMigration, hok m, hnotapp]
      have hmhead : m.version ∉ rest.map Migration.version := by
        have := hnodup
        simp only [List.map_cons, List.nodup_cons] at this
        exact this.1
      have hsub' : ∀ v ∈ snap, v ∈ s.applied ++ [m.version] := by
        intro v hv
        exact List.mem_append_left _ (hsub v hv)
      have hfresh' : ∀ v ∈ rest.map Migration.version, v ∉ snap →
          v ∉ s.applied ++ [m.version] := by
        intro v hv hvsnap
        have hv1 : v ∉ s.applied := hfresh v (by simp [hv]) hvsnap
        have hv2 : v ≠ m.version := fun h => hmhead (h ▸ hv)
        simp [hv1, hv2]
      obtain ⟨h1, h2, h3⟩ := ih snap
        { applied := s.applied ++ [m.version],
          trace := s.trace ++ [.migBody m.version m.sql, .insertLedger m.version] }
        hnodup' hsub' hfresh'
      rw [hloop]
      refine ⟨h1, ?_, ?_⟩
      · intro v hv
        exact h2 v (List.mem_append_left _ hv)
      · intro v hv
        simp only [List.map_cons, List.mem_cons] at hv
        rcases hv with hveq | hvrest
        · subst hveq
          exact h2 m.version (by simp)
        · exact h3 v hvrest

/-- Claim C4: `Migrate` is idempotent. When every migration body
succeeds and the input versions are unique, a second `Migrate` run on
the state produced by the first leaves the store completely unchanged
(equal applied-set and equal statement trace, so no migration body is
executed) and reports no error. In particular, with versions `{1,2,3}`
already applied and input `[1,2,3,4]`, only version 4's body executes
and only version 4 is recorded, versions 1-3 being untouched. -/
theorem migrate_idempotent (execBody : Migration → Option GoErr)
    (migs : List Migration) (s0 : MigState)
    (hok : ∀ m, execBody m = none)
    (hnodup : (migs.map Migration.version).Nodup) :
    (Migrate execBody migs (Migrate execBody migs s0).fst).fst = (Migrate execBody migs s0).fst ∧
    (Migrate execBody migs (Migrate execBody migs s0).fst).snd = none ∧
    bodyVersions ((Migrate (fun _ => none) [migOf 1, migOf 2, migOf 3, migOf 4]
        { applied := [1, 2, 3], trace := [] }).fst.trace) = [4] ∧
    (Migrate (fun _ => none) [migOf 1, migOf 2, migOf 3, migOf 4]
        { applied := [1, 2, 3], trace := [] }).fst.applied = [1, 2, 3, 4] := by
  obtain ⟨h1, h2, h3⟩ := migrateLoop_applies_all execBody hok migs s0.applied s0 hnodup
    (fun v hv => hv) (fun v _ hv => hv)
  have hall : ∀ m ∈ migs, m.version ∈ (Migrate execBody migs s0).fst.applied := by
    intro m hm
    exact h3 m.version (List.mem_map_of_mem Migration.version hm)
  have hskip := migrateLoop_skip_all execBody migs
    (Migrate execBody migs s0).fst.applied (Migrate execBody migs s0).fst hall
  refine ⟨?_, ?_, rfl, rfl⟩
  · rw [show Migrate execBody migs (Migrate execBody migs s0).fst =
        migrateLoop execBody (Migrate execBody migs s0).fst.applied migs
          (Migrate execBody migs s0).fst from rfl, hskip]
  · rw [show Migrate execBody migs (Migrate execBody migs s0).fst =
        migrateLoop execBody (Migrate execBody migs s0).fst.applied migs
          (Migrate execBody migs s0).fst from rfl, hskip]

/-- Claim C4 witness: idempotence at a concrete input with unique
versions and succeeding bodies. -/
theorem migrate_idempotent_witness :
    (Migrate (fun _ => none) [migOf 5, migOf 7]
        (Migrate (fun _ => none) [migOf 5, migOf 7] { applied := [], trace := [] }).fst).fst =
      (Migrate (fun _ => none) [migOf 5, migOf 7] { applied := [], trace := [] }).fst ∧
    (Migrate (fun _ => none) [migOf 5, migOf 7]
        (Migrate (fun _ => none) [migOf 5, migOf 7] { applied := [], trace := [] }).fst).snd = none ∧
    bodyVersions ((Migrate (fun _ => none) [migOf 1, migOf 2, migOf 3, migOf 4]
        { applied := [1, 2, 3], trace := [] }).fst.trace) = [4] ∧
    (Migrate (fun _ => none) [migOf 1, migOf 2, migOf 3, migOf 4]
        { applied := [1, 2, 3], trace := [] }).fst.applied = [1, 2, 3, 4] :=
  migrate_idempotent (fun _ => none) [migOf 5, migOf 7] { applied := [], trace := [] }
    (fun _ => rfl) (by decide)

/-- Claim C6: `RollbackLastMigration` on an empty ledger executes no
SQL and leaves the state unchanged, returning the error that wraps the
driver's distinct no-rows condition (`errors.Is(err, pgx.ErrNoRows)`
holds on it), not a failure of any later step. -/
theorem rollbackLast_empty_ledger (execSql : String → Option GoErr)
    (rollbacks : Int → Option String) (tr : List Stmt) :
    RollbackLastMigration execSql rollbacks { applied := [], trace := tr } =
      ({ applied := [], trace := tr },
       some (.wrap "error getting last migration" (.msg "no rows in result set"))) := rfl

/-- Claim C7: when the highest applied version `v` has no entry in the
caller-supplied rollback mapping, `RollbackLastMigration` returns the
distinct "no rollback" error and the state is returned untouched: no
rollback SQL is executed and no ledger row is deleted. -/
theorem rollbackLast_missing_mapping (execSql : String → Option GoErr)
    (rollbacks : Int → Option String) (s : MigState) (v : Int)
    (hmax : s.applied.max? = some v) (hmiss : rollbacks v = none) :
    RollbackLastMigration execSql rollbacks s =
      (s, some (.msg ("no rollback for migration " ++ toString v))) := by
  unfold RollbackLastMigration
  simp only [hmax, hmiss]

/-- Claim C7 witness: ledger `[1, 2]` with an empty rollback mapping
fails with the "no rollback for migration 2" error and unchanged
state. -/
theorem rollbackLast_missing_mapping_witness :
    RollbackLastMigration (fun _ => none) (fun _ => none) { applied := [1, 2], trace := [] } =
      ({ applied := [1, 2], trace := [] },
       some (.msg ("no rollback for migration " ++ toString (2 : Int)))) :=
  rollbackLast_missing_mapping (fun _ => none) (fun _ => none)
    { applied := [1, 2], trace := [] } 2 (by decide) rfl

lemma loadLoop_eq : ∀ (entries : List DirEntry) (acc : List Migration),
    loadLoop entries acc = acc ++ entries.filterMap migrationOfEntry := by
  intro entries
  induction entries with
  | nil => intro acc; simp [loadLoop]
  | cons e rest ih =>
    intro acc
    cases hdir : e.isDir with
    | true =>
      simp [loadLoop, migrationOfEntry, hdir, List.filterMap_cons, ih]
    | false =>
      cases hsuf : hasSqlSuffix e.name with
      | false =>
        simp [loadLoop, migrationOfEntry, hdir, hsuf, List.filterMap_cons, ih]
      | true =>
        cases hsplit : splitFirstUnderscore e.name.toList with
        | none =>
          have hsplit2 : splitFirstUnderscore e.name.data = none := hsplit
          simp [loadLoop, migrationOfEntry, hdir, hsuf, hsplit2, List.filterMap_cons, ih]
        | some p =>
          obtain ⟨tok, rem⟩ := p
          have hsplit2 : splitFirstUnderscore e.name.data = some (tok, rem) := hsplit
          cases hatoi : atoi tok with
          | none =>
            simp [loadLoop, migrationOfEntry, hdir, hsuf, hsplit2, hatoi, List.filterMap_cons, ih]
          | some v =>
            simp [loadLoop, migrationOfEntry, hdir, hsuf, hsplit2, hatoi, List.filterMap_cons, ih]

/-- Claim C5 counterexample: the entry `-1_x.sql` is kept with version
`-1`, because `strconv.Atoi` accepts a leading sign — it is not
skipped, contradicting the claim that entries whose leading token does
not parse as a non-negative integer are skipped. -/
theorem loadMigrations_negative_version_counterexample :
    (LoadMigrationsFromPath [{ name := "-1_x.sql", isDir := false, content := "c" }]).map
        Migration.version = [-1] ∧
    LoadMigrationsFromPath [{ name := "-1_x.sql", isDir := false, content := "c" }] ≠ [] := by
  have hmap : (LoadMigrationsFromPath [{ name := "-1_x.sql", isDir := false, content := "c" }]).map
      Migration.version = [-1] := rfl
  refine ⟨hmap, fun h => ?_⟩
  rw [h] at hmap
  simp at hmap

/-- Claim C5 (amended): `LoadMigrationsFromPath` returns, sorted
ascending by version, exactly the entries kept by the rule
`migrationOfEntry` — non-directory names ending in `".sql"` that split
on the first `'_'` into a leading token `strconv.Atoi` accepts (an
optionally *signed* decimal integer), everything else being silently
skipped — and on the directory `001_create_users.sql`, `abc_bad.sql`,
`002_add_status.sql` it returns exactly the versions `[1, 2]` in that
order. -/
theorem loadMigrations_characterization (entries : List DirEntry) :
    List.Pairwise (fun a b => a.version ≤ b.version) (LoadMigrationsFromPath entries) ∧
    (LoadMigrationsFromPath entries).Perm (entries.filterMap migrationOfEntry) ∧
    (LoadMigrationsFromPath
        [{ name := "001_create_users.sql", isDir := false, content := "create users" },
         { name := "abc_bad.sql", isDir := false, content := "bad" },
         { name := "002_add_status.sql", isDir := false, content := "add status" }]).map
        Migration.version = [1, 2] := by
  refine ⟨?_, ?_, rfl⟩
  · exact List.sorted_insertionSort (fun a b => a.version ≤ b.version) (loadLoop entries [])
  · have hperm := List.perm_insertionSort (fun a b : Migration => a.version ≤ b.version)
      (loadLoop entries [])
    have heq : (loadLoop entries []).Perm (entries.filterMap migrationOfEntry) := by
      rw [loadLoop_eq, List.nil_append]
    exact hperm.trans heq
